import Mathlib

/-!
# Lua 5.1.5 embedding contract (`lua.h`)

A shallow embedding of the C API header `src/lua5_1_5/src_cn/lua.h`.

* The `#define` constants and the function-like macros (`lua_pop`, ...) are
  translated from the header itself.  C `int` values are `Int`; the
  constants stay far inside the 32-bit range, and the one macro whose
  arithmetic can leave it (`lua_upvalueindex`) wraps its result to 32 bits.
* The header only *declares* the stack functions (`lua_settop`,
  `lua_remove`, ...); their bodies live in `lapi.c`, which is not part of the
  sources at hand.  Those operations are modelled from the specification and
  from the documentation blocks of the header, and every such definition says
  so in its doc comment.

A stack is the list of the slots below the recorded top, bottom first, so the
value at positive index `i` is the list element at position `i - 1`.
-/

namespace Lua

/-! ## Constants of the header -/

/-- `#define LUA_REGISTRYINDEX (-10000)`. -/
def LUA_REGISTRYINDEX : Int := -10000

/-- `#define LUA_ENVIRONINDEX (-10001)`. -/
def LUA_ENVIRONINDEX : Int := -10001

/-- `#define LUA_GLOBALSINDEX (-10002)`. -/
def LUA_GLOBALSINDEX : Int := -10002

/-- The least value of a 32-bit C `int`. -/
def INT_MIN : Int := -2147483648

/-- The greatest value of a 32-bit C `int`. -/
def INT_MAX : Int := 2147483647

/-- A value that a 32-bit C `int` can hold. -/
def inIntRange (x : Int) : Prop := INT_MIN ≤ x ∧ x ≤ INT_MAX

instance (x : Int) : Decidable (inIntRange x) := by
  unfold inIntRange
  exact inferInstance

/-- Two's-complement wrap of an integer into the 32-bit `int` range. -/
def wrapInt32 (x : Int) : Int := (x + 2147483648) % 4294967296 - 2147483648

/-- `#define lua_upvalueindex(i) (LUA_GLOBALSINDEX-(i))`, the subtraction carried
out on 32-bit C `int` values. -/
def lua_upvalueindex (i : Int) : Int := wrapInt32 (LUA_GLOBALSINDEX - i)

/-- `#define LUA_YIELD 1`. -/
def LUA_YIELD : Int := 1

/-- `#define LUA_ERRRUN 2`. -/
def LUA_ERRRUN : Int := 2

/-- `#define LUA_ERRSYNTAX 3`. -/
def LUA_ERRSYNTAX : Int := 3

/-- `#define LUA_ERRMEM 4`. -/
def LUA_ERRMEM : Int := 4

/-- `#define LUA_ERRERR 5`. -/
def LUA_ERRERR : Int := 5

/-! ## Values and stacks -/

/-- Tagged values, one constructor per type kind `LUA_TNIL .. LUA_TTHREAD` of the
header.  The numeric payload is kept as the representation of a `lua_Number`
(the numeric type itself is fixed by `luaconf.h`); collectable objects are
references. -/
inductive TValue where
  | nil
  | boolean (b : Bool)
  | lightuserdata (p : Nat)
  | number (n : Int)
  | string (s : String)
  | table (ref : Nat)
  | function (ref : Nat)
  | userdata (ref : Nat)
  | thread (ref : Nat)
  deriving DecidableEq, Repr

/-- The value stack of one execution context: the slots below the top, bottom
first. -/
abbrev Stack := List TValue

/-- Modelled from the spec: the body of `lua_gettop` (in `lapi.c`) is missing; the
header documents it as the number of elements on the stack, which is also the
index of the top slot. -/
def lua_gettop (s : Stack) : Int := (s.length : Int)

/-- Modelled from the spec: index resolution (done inside `lapi.c`) is missing.
Positive indices `1..top` are bottom-relative, negative indices `-1..-top` are
top-relative; index `0`, an index out of range and a pseudo-index denote no
physical slot.  The result is the 0-based position of the slot. -/
def index2pos (top : Nat) (idx : Int) : Option Nat :=
  if 0 < idx then
    if idx ≤ (top : Int) then some (idx.toNat - 1) else none
  else if idx < 0 ∧ -idx ≤ (top : Int) then some (top - (-idx).toNat)
  else none

/-- Modelled from the spec: the index space of a stack, positive indices `1..top`
and negative indices `-1..-top`. -/
def validIndex (s : Stack) (idx : Int) : Prop :=
  (1 ≤ idx ∧ idx ≤ lua_gettop s) ∨ (-lua_gettop s ≤ idx ∧ idx ≤ -1)

instance (s : Stack) (idx : Int) : Decidable (validIndex s idx) := by
  unfold validIndex
  exact inferInstance

/-- Modelled from the spec: the value an index denotes, `none` when the index
denotes no physical slot. -/
def stackAt (s : Stack) (idx : Int) : Option TValue :=
  match index2pos s.length idx with
  | none => none
  | some p => s[p]?

/-- Modelled from the spec: the body of `lua_settop` is missing.  Header
documentation: a target above the current top pushes that many nils, a target
below pops, the current top is a no-op, `0` clears the stack; a positive index is
used directly and a negative one is taken relative to the current top (so that
`lua_settop(L, -2)` pops one value).  A negative index reaching below the bottom is
not accepted. -/
def lua_settop (s : Stack) (idx : Int) : Option Stack :=
  if 0 ≤ idx then
    some (s.take idx.toNat ++ List.replicate (idx.toNat - s.length) TValue.nil)
  else if -(idx + 1) ≤ (s.length : Int) then
    some (s.take (s.length - (-(idx + 1)).toNat))
  else none

/-- `#define lua_pop(L,n) lua_settop(L, -(n)-1)`. -/
def lua_pop (s : Stack) (n : Int) : Option Stack := lua_settop s (-(n) - 1)

/-- Modelled from the spec: a single-value push (`lua_pushnil`, `lua_pushnumber`,
`lua_pushboolean`, ... are only declared): the value becomes the new top slot. -/
def lua_push (s : Stack) (v : TValue) : Stack := s ++ [v]

/-- Modelled from the spec: the body of `lua_pushvalue` is missing.  It duplicates
the slot at `idx` onto the top; the original stays where it is and the stack grows
by one.  Only physical slots are modelled. -/
def lua_pushvalue (s : Stack) (idx : Int) : Option Stack :=
  match index2pos s.length idx with
  | none => none
  | some p =>
    match s[p]? with
    | none => none
    | some v => some (s ++ [v])

/-- Modelled from the spec: the body of `lua_remove` is missing.  It deletes the
slot at `idx`, moves every slot above it down by one and lowers the top by one. -/
def lua_remove (s : Stack) (idx : Int) : Option Stack :=
  match index2pos s.length idx with
  | none => none
  | some p => some (s.eraseIdx p)

/-- Modelled from the spec: the body of `lua_insert` is missing.  It takes the top
value, moves the slot at `idx` and every slot above it up by one, and stores the
former top value at `idx`; the height is unchanged. -/
def lua_insert (s : Stack) (idx : Int) : Option Stack :=
  match index2pos s.length idx with
  | none => none
  | some p =>
    match s.getLast? with
    | none => none
    | some v => some (s.dropLast.take p ++ v :: s.dropLast.drop p)

/-- Modelled from the spec: the body of `lua_xmove` is missing.  It pops `n` values
from the source context and pushes them onto the target context, keeping their
relative order.  The two stacks belong to two different contexts of one global
state; the result is the pair (source, target). -/
def lua_xmove (src dst : Stack) (n : Int) : Option (Stack × Stack) :=
  if 0 ≤ n ∧ n ≤ (src.length : Int) then
    some (src.take (src.length - n.toNat), dst ++ src.drop (src.length - n.toNat))
  else none

/-- One step of a push/pop sequence: a single-value push, or `lua_pop(L, n)`. -/
inductive StackOp where
  | push (v : TValue)
  | pop (n : Int)
  deriving DecidableEq, Repr

/-- The change of the stack top a step stands for: `+1` for a push, `-n` for a pop
of `n`. -/
def StackOp.delta : StackOp → Int
  | StackOp.push _ => 1
  | StackOp.pop n => -n

/-- The algebraic sum of the individual deltas of a sequence. -/
def deltaSum (ops : List StackOp) : Int := (ops.map StackOp.delta).sum

/-- Performing one step on a stack. -/
def StackOp.apply (s : Stack) : StackOp → Option Stack
  | StackOp.push v => some (lua_push s v)
  | StackOp.pop n => lua_pop s n

/-- Performing a sequence of steps, first step first. -/
def runOps : Stack → List StackOp → Option Stack
  | s, [] => some s
  | s, op :: ops =>
    match op.apply s with
    | none => none
    | some s1 => runOps s1 ops

/-! ## Protected call -/

/-- `#define LUA_TNONE (-1)`: the tag reported for an index that denotes no value. -/
def LUA_TNONE : Int := -1

/-- `#define LUA_TNIL 0`. -/
def LUA_TNIL : Int := 0

/-- `#define LUA_TBOOLEAN 1`. -/
def LUA_TBOOLEAN : Int := 1

/-- `#define LUA_TLIGHTUSERDATA 2`. -/
def LUA_TLIGHTUSERDATA : Int := 2

/-- `#define LUA_TNUMBER 3`. -/
def LUA_TNUMBER : Int := 3

/-- `#define LUA_TSTRING 4`. -/
def LUA_TSTRING : Int := 4

/-- `#define LUA_TTABLE 5`. -/
def LUA_TTABLE : Int := 5

/-- `#define LUA_TFUNCTION 6`. -/
def LUA_TFUNCTION : Int := 6

/-- `#define LUA_TUSERDATA 7`. -/
def LUA_TUSERDATA : Int := 7

/-- `#define LUA_TTHREAD 8`. -/
def LUA_TTHREAD : Int := 8

/-- The tags of the nine type kinds, in the order the header defines them. -/
def typeTags : List Int :=
  [LUA_TNIL, LUA_TBOOLEAN, LUA_TLIGHTUSERDATA, LUA_TNUMBER, LUA_TSTRING, LUA_TTABLE,
    LUA_TFUNCTION, LUA_TUSERDATA, LUA_TTHREAD]

/-- The tags of the type kinds other than nil. -/
def nonNilTags : List Int :=
  [LUA_TBOOLEAN, LUA_TLIGHTUSERDATA, LUA_TNUMBER, LUA_TSTRING, LUA_TTABLE,
    LUA_TFUNCTION, LUA_TUSERDATA, LUA_TTHREAD]

/-- The type tag of a value. -/
def TValue.tag : TValue → Int
  | TValue.nil => LUA_TNIL
  | TValue.boolean _ => LUA_TBOOLEAN
  | TValue.lightuserdata _ => LUA_TLIGHTUSERDATA
  | TValue.number _ => LUA_TNUMBER
  | TValue.string _ => LUA_TSTRING
  | TValue.table _ => LUA_TTABLE
  | TValue.function _ => LUA_TFUNCTION
  | TValue.userdata _ => LUA_TUSERDATA
  | TValue.thread _ => LUA_TTHREAD

/-- Modelled from the spec: the body of `lua_type` is missing.  An index that does
not correspond to a currently defined value yields the "none" kind, otherwise the
tag of the value is reported.  Only physical slots are modelled. -/
def lua_type (s : Stack) (idx : Int) : Int :=
  match stackAt s idx with
  | none => LUA_TNONE
  | some v => v.tag

/-- `#define lua_isnil(L,n) (lua_type(L, (n)) == LUA_TNIL)`.  The type query
`lua_type` is only declared in the header and is taken as a parameter; the C truth
value is a `Bool`. -/
def lua_isnil {σ : Type} (type_of : σ → Int → Int) (L : σ) (n : Int) : Bool :=
  decide (type_of L n = LUA_TNIL)

/-- `#define lua_isnone(L,n) (lua_type(L, (n)) == LUA_TNONE)`. -/
def lua_isnone {σ : Type} (type_of : σ → Int → Int) (L : σ) (n : Int) : Bool :=
  decide (type_of L n = LUA_TNONE)

/-- `#define lua_isnoneornil(L, n) (lua_type(L, (n)) <= 0)`. -/
def lua_isnoneornil {σ : Type} (type_of : σ → Int → Int) (L : σ) (n : Int) : Bool :=
  decide (type_of L n ≤ 0)

/-! ## Debug events and hook masks -/

/-- `#define LUA_HOOKCALL 0`.  Event codes and masks are non-negative and used as
bit positions and bit sets, so they are natural numbers. -/
def LUA_HOOKCALL : Nat := 0

/-- `#define LUA_HOOKRET 1`. -/
def LUA_HOOKRET : Nat := 1

/-- `#define LUA_HOOKLINE 2`. -/
def LUA_HOOKLINE : Nat := 2

/-- `#define LUA_HOOKCOUNT 3`. -/
def LUA_HOOKCOUNT : Nat := 3

/-- `#define LUA_HOOKTAILRET 4`. -/
def LUA_HOOKTAILRET : Nat := 4

/-- `#define LUA_MASKCALL (1 << LUA_HOOKCALL)`. -/
def LUA_MASKCALL : Nat := 1 <<< LUA_HOOKCALL

/-- `#define LUA_MASKRET (1 << LUA_HOOKRET)`. -/
def LUA_MASKRET : Nat := 1 <<< LUA_HOOKRET

/-- `#define LUA_MASKLINE (1 << LUA_HOOKLINE)`. -/
def LUA_MASKLINE : Nat := 1 <<< LUA_HOOKLINE

/-- `#define LUA_MASKCOUNT (1 << LUA_HOOKCOUNT)`. -/
def LUA_MASKCOUNT : Nat := 1 <<< LUA_HOOKCOUNT

/-- The four events the header defines a mask for. -/
inductive HookEvent where
  | call
  | ret
  | line
  | count
  deriving DecidableEq, Repr

/-- The event code of a maskable event. -/
def HookEvent.code : HookEvent → Nat
  | HookEvent.call => LUA_HOOKCALL
  | HookEvent.ret => LUA_HOOKRET
  | HookEvent.line => LUA_HOOKLINE
  | HookEvent.count => LUA_HOOKCOUNT

/-- The mask constant of a maskable event. -/
def HookEvent.mask : HookEvent → Nat
  | HookEvent.call => LUA_MASKCALL
  | HookEvent.ret => LUA_MASKRET
  | HookEvent.line => LUA_MASKLINE
  | HookEvent.count => LUA_MASKCOUNT

/-- The hook mask of a set of events (given as a list): the bitwise OR of their
mask constants, as passed to `lua_sethook`. -/
def hookMask : List HookEvent → Nat
  | [] => 0
  | e :: S => e.mask ||| hookMask S

/-! ## Garbage-collector opcodes -/

/-- `#define LUA_GCSTOP 0`. -/
def LUA_GCSTOP : Int := 0

/-- `#define LUA_GCRESTART 1`. -/
def LUA_GCRESTART : Int := 1

/-- `#define LUA_GCCOLLECT 2`. -/
def LUA_GCCOLLECT : Int := 2

/-- `#define LUA_GCCOUNT 3`. -/
def LUA_GCCOUNT : Int := 3

/-- `#define LUA_GCCOUNTB 4`. -/
def LUA_GCCOUNTB : Int := 4

/-- `#define LUA_GCSTEP 5`. -/
def LUA_GCSTEP : Int := 5

/-- `#define LUA_GCSETPAUSE 6`. -/
def LUA_GCSETPAUSE : Int := 6

/-- `#define LUA_GCSETSTEPMUL 7`. -/
def LUA_GCSETSTEPMUL : Int := 7

/-- The opcodes in the order stop, restart, collect, count, count-remainder, step,
set-pause, set-step-multiplier. -/
def gcOpcodes : List Int :=
  [LUA_GCSTOP, LUA_GCRESTART, LUA_GCCOLLECT, LUA_GCCOUNT, LUA_GCCOUNTB, LUA_GCSTEP,
    LUA_GCSETPAUSE, LUA_GCSETSTEPMUL]

/-- `#define lua_getgccount(L) lua_gc(L, LUA_GCCOUNT, 0)`.  The multiplexed
operation `lua_gc (L, what, data)` is only declared in the header and is taken as
a parameter. -/
def lua_getgccount {σ α : Type} (gc : σ → Int → Int → α) (L : σ) : α :=
  gc L LUA_GCCOUNT 0

/-! ## Theorems -/

/-- C1: the three pseudo-indices are at most -10000; for a stack height `t` with
`0 ≤ t < 10000`, a physical index `i` (`1 ≤ i ≤ t` or `-t ≤ i ≤ -1`) differs from
all three; and the three are pairwise distinct. -/
theorem pseudo_indices_never_alias (t i : Int) (ht0 : 0 ≤ t) (ht : t < 10000)
    (hi : (1 ≤ i ∧ i ≤ t) ∨ (-t ≤ i ∧ i ≤ -1)) :
    (LUA_REGISTRYINDEX ≤ -10000 ∧ LUA_ENVIRONINDEX ≤ -10000 ∧ LUA_GLOBALSINDEX ≤ -10000) ∧
    (i ≠ LUA_REGISTRYINDEX ∧ i ≠ LUA_ENVIRONINDEX ∧ i ≠ LUA_GLOBALSINDEX) ∧
    (LUA_REGISTRYINDEX ≠ LUA_ENVIRONINDEX ∧ LUA_REGISTRYINDEX ≠ LUA_GLOBALSINDEX ∧
      LUA_ENVIRONINDEX ≠ LUA_GLOBALSINDEX) := by
  refine ⟨by decide, ?_, by decide⟩
  simp only [LUA_REGISTRYINDEX, LUA_ENVIRONINDEX, LUA_GLOBALSINDEX]
  omega

theorem pseudo_indices_never_alias_witness :
    (LUA_REGISTRYINDEX ≤ -10000 ∧ LUA_ENVIRONINDEX ≤ -10000 ∧ LUA_GLOBALSINDEX ≤ -10000) ∧
    ((-9999 : Int) ≠ LUA_REGISTRYINDEX ∧ (-9999 : Int) ≠ LUA_ENVIRONINDEX ∧
      (-9999 : Int) ≠ LUA_GLOBALSINDEX) ∧
    (LUA_REGISTRYINDEX ≠ LUA_ENVIRONINDEX ∧ LUA_REGISTRYINDEX ≠ LUA_GLOBALSINDEX ∧
      LUA_ENVIRONINDEX ≠ LUA_GLOBALSINDEX) :=
  pseudo_indices_never_alias 9999 (-9999) (by decide) (by decide) (Or.inr (by decide))

/-! ### Helper lemmas on the modelled operations -/

theorem settop_nonneg (s : Stack) (t : Int) (ht : 0 ≤ t) :
    lua_settop s t =
      some (s.take t.toNat ++ List.replicate (t.toNat - s.length) TValue.nil) := by
  simp [lua_settop, ht]

theorem settop_neg (s : Stack) (t : Int) (ht : t < 0) (hb : -(t + 1) ≤ (s.length : Int)) :
    lua_settop s t = some (s.take (s.length - (-(t + 1)).toNat)) := by
  have h : ¬ (0 ≤ t) := by omega
  rw [lua_settop, if_neg h, if_pos hb]

theorem settop_gettop (s : Stack) : lua_settop s (lua_gettop s) = some s := by
  simp [lua_settop, lua_gettop]

theorem index2pos_pos (top : Nat) (idx : Int) (h1 : 1 ≤ idx) (h2 : idx ≤ (top : Int)) :
    index2pos top idx = some (idx.toNat - 1) := by
  have h : 0 < idx := by omega
  rw [index2pos, if_pos h, if_pos h2]

theorem index2pos_neg (top : Nat) (idx : Int) (h1 : idx ≤ -1) (h2 : -(top : Int) ≤ idx) :
    index2pos top idx = some (top - (-idx).toNat) := by
  have h : ¬ (0 < idx) := by omega
  have h3 : idx < 0 ∧ -idx ≤ (top : Int) := ⟨by omega, by omega⟩
  rw [index2pos, if_neg h, if_pos h3]

theorem index2pos_valid (s : Stack) (idx : Int) (h : validIndex s idx) :
    ∃ p, index2pos s.length idx = some p ∧ p < s.length ∧
      ((1 ≤ idx ∧ (p : Int) = idx - 1) ∨ (idx ≤ -1 ∧ (p : Int) = s.length + idx)) := by
  unfold validIndex lua_gettop at h
  rcases h with ⟨h1, h2⟩ | ⟨h1, h2⟩
  · exact ⟨_, index2pos_pos _ _ h1 h2, by omega, Or.inl ⟨h1, by omega⟩⟩
  · exact ⟨_, index2pos_neg _ _ h2 h1, by omega, Or.inr ⟨h2, by omega⟩⟩

theorem stackAt_pos (s : Stack) (idx : Int) (h1 : 1 ≤ idx) (h2 : idx ≤ (s.length : Int)) :
    stackAt s idx = s[idx.toNat - 1]? := by
  rw [stackAt, index2pos_pos _ _ h1 h2]

theorem stackAt_neg (s : Stack) (idx : Int) (h1 : idx ≤ -1) (h2 : -(s.length : Int) ≤ idx) :
    stackAt s idx = s[s.length - (-idx).toNat]? := by
  rw [stackAt, index2pos_neg _ _ h1 h2]

/-- C2 (as stated, at a negative index): on a stack of height 3, `lua_settop(-2)`
is accepted twice in a row, and the second call lowers the top again. -/
theorem settop_relative_not_idempotent :
    lua_settop [TValue.number 1, TValue.number 2, TValue.number 3] (-2)
        = some [TValue.number 1, TValue.number 2] ∧
    lua_settop [TValue.number 1, TValue.number 2] (-2) = some [TValue.number 1] ∧
    ¬ (∀ (s s1 : Stack) (t : Int), lua_settop s t = some s1 → lua_settop s1 t = some s1) := by
  refine ⟨by decide, by decide, ?_⟩
  intro h
  have h1 := h [TValue.number 1, TValue.number 2, TValue.number 3]
    [TValue.number 1, TValue.number 2] (-2) (by decide)
  revert h1
  decide

/-- C2 (amended): whenever `lua_settop(t)` is accepted with `t ≥ -1`, a second
`lua_settop(t)` is accepted too and leaves the stack the first call produced; for
an accepted `t ≤ -2` the second call never leaves that stack; and
`lua_settop(lua_gettop())` leaves the stack unchanged. -/
theorem settop_idempotent_accepted (s s1 : Stack) (t : Int)
    (hacc : lua_settop s t = some s1) :
    (-1 ≤ t → lua_settop s1 t = some s1) ∧
    (t ≤ -2 → lua_settop s1 t ≠ some s1) ∧
    lua_settop s (lua_gettop s) = some s := by
  refine ⟨?_, ?_, settop_gettop s⟩
  · intro ht
    by_cases h0 : 0 ≤ t
    · rw [settop_nonneg s t h0] at hacc
      have hs1 := Option.some.inj hacc
      have hlen : s1.length = t.toNat := by
        rw [← hs1]
        simp only [List.length_append, List.length_take, List.length_replicate]
        omega
      rw [settop_nonneg s1 t h0, List.take_of_length_le (le_of_eq hlen), hlen]
      simp
    · have ht1 : t = -1 := by omega
      subst ht1
      simp [lua_settop]
  · intro ht hsame
    have hneg : t < 0 := by omega
    have hb : -(t + 1) ≤ (s1.length : Int) := by
      by_contra hnb
      have h0 : ¬ (0 ≤ t) := by omega
      rw [lua_settop, if_neg h0, if_neg hnb] at hsame
      exact Option.noConfusion hsame
    rw [settop_neg s1 t hneg hb] at hsame
    have hlen := congrArg List.length (Option.some.inj hsame)
    rw [List.length_take] at hlen
    omega

theorem settop_idempotent_accepted_witness :
    ((-1 : Int) ≤ 1 → lua_settop [TValue.number 1] 1 = some [TValue.number 1]) ∧
    ((1 : Int) ≤ -2 → lua_settop [TValue.number 1] 1 ≠ some [TValue.number 1]) ∧
    lua_settop [TValue.number 1, TValue.number 2]
        (lua_gettop [TValue.number 1, TValue.number 2])
      = some [TValue.number 1, TValue.number 2] :=
  settop_idempotent_accepted [TValue.number 1, TValue.number 2] [TValue.number 1] 1
    (by decide)

theorem eraseIdx_take_cons_drop (L : Stack) (v : TValue) (p : Nat) (hp : p ≤ L.length) :
    (L.take p ++ v :: L.drop p).eraseIdx p = L := by
  have hlen : (L.take p).length = p := by
    rw [List.length_take]
    omega
  rw [List.eraseIdx_append_of_length_le (le_of_eq hlen), hlen, Nat.sub_self]
  simp

/-- C3 (as stated): on the stack `[1, 2]`, `lua_insert(1)` followed by
`lua_remove(1)` leaves `[1]`, a stack one slot lower than the stack `lua_insert`
was called on. -/
theorem insert_remove_drops_top :
    lua_insert [TValue.number 1, TValue.number 2] 1
        = some [TValue.number 2, TValue.number 1] ∧
    lua_remove [TValue.number 2, TValue.number 1] 1 = some [TValue.number 1] ∧
    [TValue.number 1] ≠ [TValue.number 1, TValue.number 2] := by
  decide

/-- C3 (amended): for every stack of height `t ≥ 1` and every valid position `P`,
`lua_insert(P)` keeps the height, and `lua_remove(P)` after it yields the stack
that precedes the push of the inserted value: its height is `t - 1` and pushing
the former top value onto it gives back the stack `lua_insert` was called on. -/
theorem insert_then_remove (s : Stack) (P : Int) (ht : 1 ≤ lua_gettop s)
    (hP : validIndex s P) :
    ∃ s1 s2 v, lua_insert s P = some s1 ∧ lua_gettop s1 = lua_gettop s ∧
      lua_remove s1 P = some s2 ∧ lua_gettop s2 = lua_gettop s - 1 ∧
      stackAt s (-1) = some v ∧ lua_push s2 v = s := by
  obtain ⟨p, hp, hlt, -⟩ := index2pos_valid s P hP
  rcases List.eq_nil_or_concat s with hs | ⟨L, v, hs⟩
  · subst hs
    simp at hlt
  · rw [List.concat_eq_append] at hs
    subst hs
    have hpL : p ≤ L.length := by
      simp only [List.length_append, List.length_singleton] at hlt
      omega
    have hlen : (L.take p ++ v :: L.drop p).length = (L ++ [v]).length := by
      simp only [List.length_append, List.length_take, List.length_cons, List.length_drop,
        List.length_singleton, List.length_nil]
      omega
    have hins : lua_insert (L ++ [v]) P = some (L.take p ++ v :: L.drop p) := by
      rw [lua_insert, hp]
      simp
    have hrem : lua_remove (L.take p ++ v :: L.drop p) P = some L := by
      rw [lua_remove, hlen, hp]
      simp only
      rw [eraseIdx_take_cons_drop L v p hpL]
    refine ⟨_, L, v, hins, ?_, hrem, ?_, ?_, rfl⟩
    · simp only [lua_gettop, hlen]
    · simp [lua_gettop]
    · rw [stackAt_neg _ _ (by decide) (by simp)]
      simp

theorem insert_then_remove_witness :
    ∃ s1 s2 v, lua_insert [TValue.number 1, TValue.number 2, TValue.number 3] (-2) = some s1 ∧
      lua_gettop s1 = lua_gettop [TValue.number 1, TValue.number 2, TValue.number 3] ∧
      lua_remove s1 (-2) = some s2 ∧
      lua_gettop s2 = lua_gettop [TValue.number 1, TValue.number 2, TValue.number 3] - 1 ∧
      stackAt [TValue.number 1, TValue.number 2, TValue.number 3] (-1) = some v ∧
      lua_push s2 v = [TValue.number 1, TValue.number 2, TValue.number 3] :=
  insert_then_remove [TValue.number 1, TValue.number 2, TValue.number 3] (-2)
    (by decide) (by decide)

theorem eraseIdx_concat_perm (s : Stack) (p : Nat) (v : TValue) (h : s[p]? = some v) :
    (s.eraseIdx p ++ [v]).Perm s := by
  induction s generalizing p with
  | nil => simp at h
  | cons a t ih =>
    cases p with
    | zero =>
      simp only [List.getElem?_cons_zero, Option.some.injEq] at h
      subst h
      simp
    | succ k =>
      simp only [List.getElem?_cons_succ] at h
      simpa using ih k h

/-- C4 (as stated): on the stack `[1, 2]`, `lua_pushvalue(1)` followed by
`lua_remove(1)` leaves `[2, 1]`, which differs from `[1, 2]` at both positions;
on `[1, 2, 3]` with the index `-2` the two calls leave `[1, 2, 2]`. -/
theorem pushvalue_remove_reorders :
    lua_pushvalue [TValue.number 1, TValue.number 2] 1
        = some [TValue.number 1, TValue.number 2, TValue.number 1] ∧
    lua_remove [TValue.number 1, TValue.number 2, TValue.number 1] 1
        = some [TValue.number 2, TValue.number 1] ∧
    stackAt [TValue.number 2, TValue.number 1] 1 ≠ stackAt [TValue.number 1, TValue.number 2] 1 ∧
    lua_pushvalue [TValue.number 1, TValue.number 2, TValue.number 3] (-2)
        = some [TValue.number 1, TValue.number 2, TValue.number 3, TValue.number 2] ∧
    lua_remove [TValue.number 1, TValue.number 2, TValue.number 3, TValue.number 2] (-2)
        = some [TValue.number 1, TValue.number 2, TValue.number 2] := by
  decide

/-- C4 (amended): for every stack and every valid index `idx`, `lua_pushvalue(idx)`
followed by `lua_remove(idx)` leaves a stack of the same height.  When `idx`
denotes the top slot (`idx` is the height or `-1`) the stack is unchanged position
by position.  For a positive `idx` the slot is taken out and its value put on top,
so the values are the same up to order.  For `idx ≤ -2` the second call resolves
`idx` against the raised top and takes out the slot above the duplicated one. -/
theorem pushvalue_then_remove (s : Stack) (idx : Int) (hidx : validIndex s idx) :
    ∃ s1 s2 v, stackAt s idx = some v ∧ lua_pushvalue s idx = some s1 ∧
      lua_remove s1 idx = some s2 ∧ lua_gettop s2 = lua_gettop s ∧
      ((idx = lua_gettop s ∨ idx = -1) → s2 = s) ∧
      (1 ≤ idx → s2 = s.eraseIdx (idx.toNat - 1) ++ [v] ∧ s2.Perm s) ∧
      (idx ≤ -2 → s2 = s.eraseIdx (s.length + 1 - (-idx).toNat) ++ [v]) := by
  obtain ⟨p, hp, hlt, hcase⟩ := index2pos_valid s idx hidx
  have hv : s[p]? = some s[p] := List.getElem?_eq_getElem hlt
  have hat : stackAt s idx = some s[p] := by rw [stackAt, hp]; exact hv
  have hpush : lua_pushvalue s idx = some (s ++ [s[p]]) := by
    rw [lua_pushvalue, hp]
    simp only [hv]
  have hlen1 : (s ++ [s[p]]).length = s.length + 1 := by simp
  rcases hcase with ⟨h1, hpi⟩ | ⟨h1, hpi⟩
  · -- positive index: the same position is resolved again
    have hp1 : index2pos (s ++ [s[p]]).length idx = some p := by
      rw [index2pos_pos _ _ h1 (by rw [hlen1]; push_cast; omega)]
      congr 1
      omega
    have hpe : idx.toNat - 1 = p := by omega
    have hrem : lua_remove (s ++ [s[p]]) idx = some (s.eraseIdx p ++ [s[p]]) := by
      rw [lua_remove, hp1]
      simp only
      rw [List.eraseIdx_append_of_lt_length hlt]
    refine ⟨_, _, _, hat, hpush, hrem, ?_, ?_, ?_, ?_⟩
    · simp only [lua_gettop, List.length_append, List.length_eraseIdx_of_lt hlt,
        List.length_singleton]
      omega
    · intro htop
      have hlast : p + 1 = s.length := by
        unfold lua_gettop at htop
        omega
      have hpe2 : s.eraseIdx p = s.dropLast := by
        rw [List.dropLast_eq_take, List.eraseIdx_eq_take_drop_succ, hlast]
        simp
        omega
      have hne : s ≠ [] := by
        intro h0
        subst h0
        simp at hlt
      have hgl : s[p] = s.getLast hne := by
        rw [List.getLast_eq_getElem]
        congr 1
        omega
      rw [hpe2, hgl]
      exact List.dropLast_concat_getLast hne
    · intro _
      rw [hpe]
      exact ⟨rfl, eraseIdx_concat_perm s p _ hv⟩
    · intro h2
      omega
  · -- negative index: resolved against the raised top, one position higher
    have hp1 : index2pos (s ++ [s[p]]).length idx = some (p + 1) := by
      rw [index2pos_neg _ _ h1 (by rw [hlen1]; push_cast; omega), hlen1]
      congr 1
      omega
    have hrem : lua_remove (s ++ [s[p]]) idx = some ((s ++ [s[p]]).eraseIdx (p + 1)) := by
      rw [lua_remove, hp1]
    by_cases htop : idx = -1
    · have hlast : p + 1 = s.length := by omega
      have he : (s ++ [s[p]]).eraseIdx (p + 1) = s := by
        rw [List.eraseIdx_append_of_length_le (by omega), hlast]
        simp
      rw [he] at hrem
      refine ⟨_, _, _, hat, hpush, hrem, rfl, fun _ => rfl, ?_, ?_⟩
      · intro h2
        omega
      · intro h2
        omega
    · have hlt1 : p + 1 < s.length := by omega
      have he : (s ++ [s[p]]).eraseIdx (p + 1) = s.eraseIdx (p + 1) ++ [s[p]] :=
        List.eraseIdx_append_of_lt_length hlt1 _
      rw [he] at hrem
      refine ⟨_, _, _, hat, hpush, hrem, ?_, ?_, ?_, ?_⟩
      · simp only [lua_gettop, List.length_append, List.length_eraseIdx_of_lt hlt1,
          List.length_singleton]
        omega
      · intro h2
        unfold lua_gettop at h2
        omega
      · intro h2
        omega
      · intro _
        have hpe : s.length + 1 - (-idx).toNat = p + 1 := by omega
        rw [hpe]

theorem pushvalue_then_remove_witness :
    ∃ s1 s2 v, stackAt [TValue.number 1, TValue.number 2, TValue.number 3] 2 = some v ∧
      lua_pushvalue [TValue.number 1, TValue.number 2, TValue.number 3] 2 = some s1 ∧
      lua_remove s1 2 = some s2 ∧
      lua_gettop s2 = lua_gettop [TValue.number 1, TValue.number 2, TValue.number 3] ∧
      (((2 : Int) = lua_gettop [TValue.number 1, TValue.number 2, TValue.number 3] ∨
          (2 : Int) = -1) → s2 = [TValue.number 1, TValue.number 2, TValue.number 3]) ∧
      ((1 : Int) ≤ 2 →
        s2 = [TValue.number 1, TValue.number 2, TValue.number 3].eraseIdx ((2 : Int).toNat - 1)
              ++ [v] ∧
        s2.Perm [TValue.number 1, TValue.number 2, TValue.number 3]) ∧
      ((2 : Int) ≤ -2 →
        s2 = [TValue.number 1, TValue.number 2, TValue.number 3].eraseIdx
              ([TValue.number 1, TValue.number 2, TValue.number 3].length + 1
                - (-(2 : Int)).toNat) ++ [v]) :=
  pushvalue_then_remove [TValue.number 1, TValue.number 2, TValue.number 3] 2
    (Or.inl (by decide))

/-- C5: `lua_xmove(from, to, n)` with `0 ≤ n ≤ f` leaves the source at height
`f - n` with its lowest `f - n` slots unchanged, the target at height `g + n` with
its lowest `g` slots unchanged, and target slot `g + k` holds the value formerly at
source slot `f - n + k`, for every `k` in `1..n`. -/
theorem xmove_moves_top (src dst : Stack) (n : Int) (h0 : 0 ≤ n) (hn : n ≤ lua_gettop src) :
    ∃ src1 dst1, lua_xmove src dst n = some (src1, dst1) ∧
      lua_gettop src1 = lua_gettop src - n ∧
      (∀ i : Int, 1 ≤ i → i ≤ lua_gettop src - n →
        ∃ v, stackAt src i = some v ∧ stackAt src1 i = some v) ∧
      lua_gettop dst1 = lua_gettop dst + n ∧
      (∀ i : Int, 1 ≤ i → i ≤ lua_gettop dst →
        ∃ v, stackAt dst i = some v ∧ stackAt dst1 i = some v) ∧
      (∀ k : Int, 1 ≤ k → k ≤ n →
        ∃ v, stackAt src (lua_gettop src - n + k) = some v ∧
          stackAt dst1 (lua_gettop dst + k) = some v) := by
  unfold lua_gettop at *
  have hx : lua_xmove src dst n
      = some (src.take (src.length - n.toNat), dst ++ src.drop (src.length - n.toNat)) := by
    rw [lua_xmove, if_pos ⟨h0, hn⟩]
  have hl1 : (src.take (src.length - n.toNat)).length = src.length - n.toNat := by
    rw [List.length_take]
    omega
  have hl2 : (dst ++ src.drop (src.length - n.toNat)).length = dst.length + n.toNat := by
    rw [List.length_append, List.length_drop]
    omega
  refine ⟨_, _, hx, ?_, ?_, ?_, ?_, ?_⟩
  · rw [hl1]
    omega
  · intro i hi1 hi2
    have hlt : i.toNat - 1 < src.length := by omega
    refine ⟨src[i.toNat - 1], ?_, ?_⟩
    · rw [stackAt_pos _ _ hi1 (by omega)]
      exact List.getElem?_eq_getElem hlt
    · rw [stackAt_pos _ _ hi1 (by rw [hl1]; omega),
        List.getElem?_take_of_lt (by omega)]
      exact List.getElem?_eq_getElem hlt
  · rw [hl2]
    omega
  · intro i hi1 hi2
    have hlt : i.toNat - 1 < dst.length := by omega
    refine ⟨dst[i.toNat - 1], ?_, ?_⟩
    · rw [stackAt_pos _ _ hi1 hi2]
      exact List.getElem?_eq_getElem hlt
    · rw [stackAt_pos _ _ hi1 (by rw [hl2]; omega), List.getElem?_append_left hlt]
      exact List.getElem?_eq_getElem hlt
  · intro k hk1 hk2
    have hlt : ((src.length : Int) - n + k).toNat - 1 < src.length := by omega
    refine ⟨src[((src.length : Int) - n + k).toNat - 1], ?_, ?_⟩
    · rw [stackAt_pos _ _ (by omega) (by omega)]
      exact List.getElem?_eq_getElem hlt
    · rw [stackAt_pos _ _ (by omega) (by rw [hl2]; omega),
        List.getElem?_append_right (by omega), List.getElem?_drop]
      have he : src.length - n.toNat + (((dst.length : Int) + k).toNat - 1 - dst.length)
          = ((src.length : Int) - n + k).toNat - 1 := by omega
      rw [he]
      exact List.getElem?_eq_getElem hlt

theorem xmove_moves_top_witness :
    ∃ src1 dst1,
      lua_xmove [TValue.number 1, TValue.number 2, TValue.number 3] [TValue.boolean true] 2
        = some (src1, dst1) ∧
      lua_gettop src1 = lua_gettop [TValue.number 1, TValue.number 2, TValue.number 3] - 2 ∧
      (∀ i : Int, 1 ≤ i →
        i ≤ lua_gettop [TValue.number 1, TValue.number 2, TValue.number 3] - 2 →
        ∃ v, stackAt [TValue.number 1, TValue.number 2, TValue.number 3] i = some v ∧
          stackAt src1 i = some v) ∧
      lua_gettop dst1 = lua_gettop [TValue.boolean true] + 2 ∧
      (∀ i : Int, 1 ≤ i → i ≤ lua_gettop [TValue.boolean true] →
        ∃ v, stackAt [TValue.boolean true] i = some v ∧ stackAt dst1 i = some v) ∧
      (∀ k : Int, 1 ≤ k → k ≤ 2 →
        ∃ v, stackAt [TValue.number 1, TValue.number 2, TValue.number 3]
              (lua_gettop [TValue.number 1, TValue.number 2, TValue.number 3] - 2 + k) = some v ∧
          stackAt dst1 (lua_gettop [TValue.boolean true] + k) = some v) :=
  xmove_moves_top [TValue.number 1, TValue.number 2, TValue.number 3] [TValue.boolean true] 2
    (by decide) (by decide)

theorem pop_spec (s : Stack) (n : Int) (h0 : 0 ≤ n) (hn : n ≤ lua_gettop s) :
    ∃ s1, lua_pop s n = some s1 ∧ lua_gettop s1 = lua_gettop s - n ∧
      ∀ i : Int, 1 ≤ i → i ≤ lua_gettop s - n →
        ∃ v, stackAt s i = some v ∧ stackAt s1 i = some v := by
  unfold lua_gettop at *
  have hp : lua_pop s n = some (s.take (s.length - (-(-(n) - 1 + 1)).toNat)) := by
    rw [lua_pop, settop_neg s _ (by omega) (by omega)]
  have hl : (s.take (s.length - (-(-(n) - 1 + 1)).toNat)).length = s.length - n.toNat := by
    rw [List.length_take]
    omega
  refine ⟨_, hp, ?_, ?_⟩
  · rw [hl]
    omega
  · intro i hi1 hi2
    have hlt : i.toNat - 1 < s.length := by omega
    refine ⟨s[i.toNat - 1], ?_, ?_⟩
    · rw [stackAt_pos _ _ hi1 (by omega)]
      exact List.getElem?_eq_getElem hlt
    · rw [stackAt_pos _ _ hi1 (by rw [hl]; omega), List.getElem?_take_of_lt (by omega)]
      exact List.getElem?_eq_getElem hlt

theorem deltaSum_cons (op : StackOp) (ops : List StackOp) :
    deltaSum (op :: ops) = op.delta + deltaSum ops := by
  simp [deltaSum]

theorem runOps_top (ops : List StackOp) :
    ∀ s : Stack, (∀ m, StackOp.pop m ∈ ops → 0 ≤ m) →
      (∀ k, k ≤ ops.length → 0 ≤ lua_gettop s + deltaSum (ops.take k)) →
      ∃ s2, runOps s ops = some s2 ∧ lua_gettop s2 = lua_gettop s + deltaSum ops := by
  induction ops with
  | nil =>
    intro s _ _
    exact ⟨s, rfl, by simp [deltaSum]⟩
  | cons op ops ih =>
    intro s hnn hb
    have hstep : ∃ s1, op.apply s = some s1 ∧ lua_gettop s1 = lua_gettop s + op.delta := by
      cases op with
      | push v =>
        exact ⟨lua_push s v, rfl, by simp [lua_gettop, lua_push, StackOp.delta]⟩
      | pop m =>
        have hm : 0 ≤ m := hnn m (List.mem_cons_self _ _)
        have h1 := hb 1 (by simp)
        simp only [List.take_succ_cons, List.take_zero, deltaSum_cons, StackOp.delta] at h1
        have h2 : deltaSum [] = 0 := by simp [deltaSum]
        obtain ⟨s1, hs1, hl, -⟩ := pop_spec s m hm (by omega)
        exact ⟨s1, hs1, by simp only [StackOp.delta]; omega⟩
    obtain ⟨s1, hs1, hl1⟩ := hstep
    have hnn1 : ∀ m, StackOp.pop m ∈ ops → 0 ≤ m := fun m hm =>
      hnn m (List.mem_cons_of_mem _ hm)
    have hb1 : ∀ k, k ≤ ops.length → 0 ≤ lua_gettop s1 + deltaSum (ops.take k) := by
      intro k hk
      have h := hb (k + 1) (by simp only [List.length_cons]; omega)
      rw [List.take_succ_cons, deltaSum_cons] at h
      omega
    obtain ⟨s2, hs2, hl2⟩ := ih s1 hnn1 hb1
    refine ⟨s2, ?_, ?_⟩
    · simp only [runOps, hs1]
      exact hs2
    · rw [deltaSum_cons]
      omega

/-- C6: `lua_pop(L, n)` is `lua_settop(L, -(n)-1)`; for `0 ≤ n ≤ t` it leaves the
height `t - n` and the lowest `t - n` slots unchanged; `lua_pop(L, 1)` is
`lua_settop(L, -2)` and `lua_pop(L, 0)` changes nothing; and a sequence of
single-value pushes and pops that never goes below the bottom ends at the initial
top plus the sum of the individual deltas. -/
theorem pop_lowers_top_and_deltas_add (s : Stack) (n : Int) (h0 : 0 ≤ n)
    (hn : n ≤ lua_gettop s) (ops : List StackOp)
    (hnn : ∀ m, StackOp.pop m ∈ ops → 0 ≤ m)
    (hb : ∀ k, k ≤ ops.length → 0 ≤ lua_gettop s + deltaSum (ops.take k)) :
    lua_pop s n = lua_settop s (-(n) - 1) ∧
    (∃ s1, lua_pop s n = some s1 ∧ lua_gettop s1 = lua_gettop s - n ∧
      ∀ i : Int, 1 ≤ i → i ≤ lua_gettop s - n →
        ∃ v, stackAt s i = some v ∧ stackAt s1 i = some v) ∧
    lua_pop s 1 = lua_settop s (-2) ∧
    lua_pop s 0 = some s ∧
    (∃ s2, runOps s ops = some s2 ∧ lua_gettop s2 = lua_gettop s + deltaSum ops) := by
  refine ⟨rfl, pop_spec s n h0 hn, rfl, ?_, runOps_top ops s hnn hb⟩
  simp [lua_pop, lua_settop]

theorem pop_lowers_top_and_deltas_add_witness :
    lua_pop [TValue.number 1, TValue.number 2, TValue.number 3] 2
      = lua_settop [TValue.number 1, TValue.number 2, TValue.number 3] (-(2) - 1) ∧
    (∃ s1, lua_pop [TValue.number 1, TValue.number 2, TValue.number 3] 2 = some s1 ∧
      lua_gettop s1 = lua_gettop [TValue.number 1, TValue.number 2, TValue.number 3] - 2 ∧
      ∀ i : Int, 1 ≤ i →
        i ≤ lua_gettop [TValue.number 1, TValue.number 2, TValue.number 3] - 2 →
        ∃ v, stackAt [TValue.number 1, TValue.number 2, TValue.number 3] i = some v ∧
          stackAt s1 i = some v) ∧
    lua_pop [TValue.number 1, TValue.number 2, TValue.number 3] 1
      = lua_settop [TValue.number 1, TValue.number 2, TValue.number 3] (-2) ∧
    lua_pop [TValue.number 1, TValue.number 2, TValue.number 3] 0
      = some [TValue.number 1, TValue.number 2, TValue.number 3] ∧
    (∃ s2, runOps [TValue.number 1, TValue.number 2, TValue.number 3]
          [StackOp.push TValue.nil, StackOp.pop 4, StackOp.push (TValue.boolean true),
            StackOp.pop 0] = some s2 ∧
      lua_gettop s2 = lua_gettop [TValue.number 1, TValue.number 2, TValue.number 3]
        + deltaSum [StackOp.push TValue.nil, StackOp.pop 4, StackOp.push (TValue.boolean true),
            StackOp.pop 0]) :=
  pop_lowers_top_and_deltas_add [TValue.number 1, TValue.number 2, TValue.number 3] 2
    (by decide) (by decide)
    [StackOp.push TValue.nil, StackOp.pop 4, StackOp.push (TValue.boolean true), StackOp.pop 0]
    (by
      intro m hm
      simp only [List.mem_cons, StackOp.pop.injEq, List.mem_singleton, reduceCtorEq,
        false_or, List.mem_nil_iff, or_false] at hm
      omega)
    (by decide)

/-- C7: for a stack of height `t ≥ 1` and a position `p` in `1..t`, given either as
`p` or as the negative index `p - t - 1`, `lua_remove` leaves height `t - 1`, the
slots at positive indices below `p` unchanged, the value formerly at a positive
index `q` with `p < q ≤ t` at index `q - 1`, and every negative index `-k` with
`1 ≤ k ≤ t - p` denoting the value it denoted before. -/
theorem remove_closes_gap (s : Stack) (p idx : Int) (hp1 : 1 ≤ p) (hp2 : p ≤ lua_gettop s)
    (hidx : idx = p ∨ idx = p - lua_gettop s - 1) :
    ∃ s1, lua_remove s idx = some s1 ∧ lua_gettop s1 = lua_gettop s - 1 ∧
      (∀ q : Int, 1 ≤ q → q < p → ∃ v, stackAt s q = some v ∧ stackAt s1 q = some v) ∧
      (∀ q : Int, p < q → q ≤ lua_gettop s →
        ∃ v, stackAt s q = some v ∧ stackAt s1 (q - 1) = some v) ∧
      (∀ k : Int, 1 ≤ k → k ≤ lua_gettop s - p →
        ∃ v, stackAt s (-k) = some v ∧ stackAt s1 (-k) = some v) := by
  unfold lua_gettop at *
  have hlt : p.toNat - 1 < s.length := by omega
  have hpos : index2pos s.length idx = some (p.toNat - 1) := by
    rcases hidx with h | h
    · rw [h, index2pos_pos _ _ hp1 hp2]
    · rw [index2pos_neg _ _ (by omega) (by omega)]
      congr 1
      omega
  have hrem : lua_remove s idx = some (s.eraseIdx (p.toNat - 1)) := by
    rw [lua_remove, hpos]
  have hl : (s.eraseIdx (p.toNat - 1)).length = s.length - 1 :=
    List.length_eraseIdx_of_lt hlt
  refine ⟨_, hrem, ?_, ?_, ?_, ?_⟩
  · rw [hl]
    omega
  · intro q hq1 hq2
    have hq : q.toNat - 1 < s.length := by omega
    refine ⟨s[q.toNat - 1], ?_, ?_⟩
    · rw [stackAt_pos _ _ hq1 (by omega)]
      exact List.getElem?_eq_getElem hq
    · rw [stackAt_pos _ _ hq1 (by rw [hl]; omega),
        List.getElem?_eraseIdx_of_lt _ _ _ (by omega)]
      exact List.getElem?_eq_getElem hq
  · intro q hq1 hq2
    have hq : q.toNat - 1 < s.length := by omega
    refine ⟨s[q.toNat - 1], ?_, ?_⟩
    · rw [stackAt_pos _ _ (by omega) hq2]
      exact List.getElem?_eq_getElem hq
    · rw [stackAt_pos _ _ (by omega) (by rw [hl]; omega),
        List.getElem?_eraseIdx_of_ge _ _ _ (by omega)]
      have he : (q - 1).toNat - 1 + 1 = q.toNat - 1 := by omega
      rw [he]
      exact List.getElem?_eq_getElem hq
  · intro k hk1 hk2
    have hq : s.length - (-(-k)).toNat < s.length := by omega
    refine ⟨s[s.length - (-(-k)).toNat], ?_, ?_⟩
    · rw [stackAt_neg _ _ (by omega) (by omega)]
      exact List.getElem?_eq_getElem hq
    · rw [stackAt_neg _ _ (by omega) (by rw [hl]; omega),
        List.getElem?_eraseIdx_of_ge _ _ _ (by rw [hl]; omega)]
      have he : (s.eraseIdx (p.toNat - 1)).length - (-(-k)).toNat + 1
          = s.length - (-(-k)).toNat := by
        rw [hl]
        omega
      rw [he]
      exact List.getElem?_eq_getElem hq

theorem remove_closes_gap_witness :
    ∃ s1, lua_remove [TValue.number 1, TValue.number 2, TValue.number 3] (-2) = some s1 ∧
      lua_gettop s1 = lua_gettop [TValue.number 1, TValue.number 2, TValue.number 3] - 1 ∧
      (∀ q : Int, 1 ≤ q → q < 2 →
        ∃ v, stackAt [TValue.number 1, TValue.number 2, TValue.number 3] q = some v ∧
          stackAt s1 q = some v) ∧
      (∀ q : Int, 2 < q → q ≤ lua_gettop [TValue.number 1, TValue.number 2, TValue.number 3] →
        ∃ v, stackAt [TValue.number 1, TValue.number 2, TValue.number 3] q = some v ∧
          stackAt s1 (q - 1) = some v) ∧
      (∀ k : Int, 1 ≤ k →
        k ≤ lua_gettop [TValue.number 1, TValue.number 2, TValue.number 3] - 2 →
        ∃ v, stackAt [TValue.number 1, TValue.number 2, TValue.number 3] (-k) = some v ∧
          stackAt s1 (-k) = some v) :=
  remove_closes_gap [TValue.number 1, TValue.number 2, TValue.number 3] 2 (-2)
    (by decide) (by decide) (Or.inr (by decide))

/-- C8: for an absolute target `idx ≥ 0`, `lua_settop(idx)` leaves height `idx`,
keeps every slot at an index up to `min(t, idx)` and fills every slot at an index
in `(t, idx]` with nil; for a negative index `nidx` in `[-(t+1), -1]` the new
height is `t + nidx + 1`; and `lua_settop(0)` empties the stack. -/
theorem settop_pads_with_nil (s : Stack) (idx nidx : Int) (h0 : 0 ≤ idx)
    (hn1 : -(lua_gettop s + 1) ≤ nidx) (hn2 : nidx ≤ -1) :
    (∃ s1, lua_settop s idx = some s1 ∧ lua_gettop s1 = idx ∧
      (∀ i : Int, 1 ≤ i → i ≤ min (lua_gettop s) idx →
        ∃ v, stackAt s i = some v ∧ stackAt s1 i = some v) ∧
      (∀ i : Int, lua_gettop s < i → i ≤ idx → stackAt s1 i = some TValue.nil)) ∧
    (∃ s2, lua_settop s nidx = some s2 ∧ lua_gettop s2 = lua_gettop s + nidx + 1) ∧
    lua_settop s 0 = some [] := by
  unfold lua_gettop at *
  have hl : (s.take idx.toNat ++ List.replicate (idx.toNat - s.length) TValue.nil).length
      = idx.toNat := by
    simp only [List.length_append, List.length_take, List.length_replicate]
    omega
  refine ⟨⟨_, settop_nonneg s idx h0, ?_, ?_, ?_⟩, ⟨_, settop_neg s nidx (by omega) (by omega), ?_⟩, ?_⟩
  · rw [hl]
    omega
  · intro i hi1 hi2
    have hi3 : i ≤ (s.length : Int) := le_trans hi2 (min_le_left _ _)
    have hi4 : i ≤ idx := le_trans hi2 (min_le_right _ _)
    have hq : i.toNat - 1 < s.length := by omega
    refine ⟨s[i.toNat - 1], ?_, ?_⟩
    · rw [stackAt_pos _ _ hi1 hi3]
      exact List.getElem?_eq_getElem hq
    · rw [stackAt_pos _ _ hi1 (by rw [hl]; omega),
        List.getElem?_append_left (by rw [List.length_take]; omega),
        List.getElem?_take_of_lt (by omega)]
      exact List.getElem?_eq_getElem hq
  · intro i hi1 hi2
    rw [stackAt_pos _ _ (by omega) (by rw [hl]; omega),
      List.getElem?_append_right (by rw [List.length_take]; omega),
      List.getElem?_replicate_of_lt (by rw [List.length_take]; omega)]
  · rw [List.length_take]
    omega
  · simp [lua_settop]

theorem settop_pads_with_nil_witness :
    (∃ s1, lua_settop [TValue.number 1, TValue.number 2] 4 = some s1 ∧ lua_gettop s1 = 4 ∧
      (∀ i : Int, 1 ≤ i → i ≤ min (lua_gettop [TValue.number 1, TValue.number 2]) 4 →
        ∃ v, stackAt [TValue.number 1, TValue.number 2] i = some v ∧ stackAt s1 i = some v) ∧
      (∀ i : Int, lua_gettop [TValue.number 1, TValue.number 2] < i → i ≤ 4 →
        stackAt s1 i = some TValue.nil)) ∧
    (∃ s2, lua_settop [TValue.number 1, TValue.number 2] (-3) = some s2 ∧
      lua_gettop s2 = lua_gettop [TValue.number 1, TValue.number 2] + (-3) + 1) ∧
    lua_settop [TValue.number 1, TValue.number 2] 0 = some [] :=
  settop_pads_with_nil [TValue.number 1, TValue.number 2] 4 (-3)
    (by decide) (by decide) (by decide)

/-- C10: the status codes are yield 1, runtime error 2, syntax error 3, memory
error 4 and error-in-error-handler 5; they are pairwise distinct and none is the
ok status 0. -/
theorem status_codes_values :
    (LUA_YIELD = 1 ∧ LUA_ERRRUN = 2 ∧ LUA_ERRSYNTAX = 3 ∧ LUA_ERRMEM = 4 ∧ LUA_ERRERR = 5) ∧
    [LUA_YIELD, LUA_ERRRUN, LUA_ERRSYNTAX, LUA_ERRMEM, LUA_ERRERR].Nodup ∧
    (LUA_YIELD ≠ 0 ∧ LUA_ERRRUN ≠ 0 ∧ LUA_ERRSYNTAX ≠ 0 ∧ LUA_ERRMEM ≠ 0 ∧ LUA_ERRERR ≠ 0) := by
  decide

theorem mem_typeTags (v : Int) : v ∈ typeTags ↔ 0 ≤ v ∧ v ≤ 8 := by
  simp only [typeTags, LUA_TNIL, LUA_TBOOLEAN, LUA_TLIGHTUSERDATA, LUA_TNUMBER, LUA_TSTRING,
    LUA_TTABLE, LUA_TFUNCTION, LUA_TUSERDATA, LUA_TTHREAD, List.mem_cons, List.mem_singleton,
    List.mem_nil_iff, or_false]
  omega

theorem mem_nonNilTags (v : Int) : v ∈ nonNilTags ↔ 1 ≤ v ∧ v ≤ 8 := by
  simp only [nonNilTags, LUA_TBOOLEAN, LUA_TLIGHTUSERDATA, LUA_TNUMBER, LUA_TSTRING,
    LUA_TTABLE, LUA_TFUNCTION, LUA_TUSERDATA, LUA_TTHREAD, List.mem_cons, List.mem_singleton,
    List.mem_nil_iff, or_false]
  omega

theorem TValue.tag_mem (v : TValue) : v.tag ∈ typeTags := by
  cases v <;> simp only [TValue.tag] <;> decide

theorem lua_type_range (s : Stack) (idx : Int) :
    lua_type s idx = LUA_TNONE ∨ lua_type s idx ∈ typeTags := by
  unfold lua_type
  cases stackAt s idx with
  | none => exact Or.inl rfl
  | some v => exact Or.inr (TValue.tag_mem v)

/-- C11: whenever the type query returns `LUA_TNONE` or one of the tags `0..8`, the
test `lua_type(L, n) <= 0` of `lua_isnoneornil` holds exactly when the tag is
`LUA_TNONE` or `LUA_TNIL`; `lua_isnoneornil` agrees with "`lua_isnone` or
`lua_isnil`", and it is false for the tags of boolean, light userdata, number,
string, table, function, userdata and thread. -/
theorem isnoneornil_iff_none_or_nil {σ : Type} (type_of : σ → Int → Int) (L : σ) (n : Int)
    (hv : type_of L n = LUA_TNONE ∨ type_of L n ∈ typeTags) :
    (lua_isnoneornil type_of L n = true ↔
      (type_of L n = LUA_TNONE ∨ type_of L n = LUA_TNIL)) ∧
    lua_isnoneornil type_of L n = (lua_isnone type_of L n || lua_isnil type_of L n) ∧
    (type_of L n ∈ nonNilTags → lua_isnoneornil type_of L n = false) := by
  rw [mem_typeTags] at hv
  rw [mem_nonNilTags]
  have hiff : type_of L n ≤ 0 ↔ (type_of L n = LUA_TNONE ∨ type_of L n = LUA_TNIL) := by
    unfold LUA_TNONE LUA_TNIL at *
    omega
  refine ⟨?_, ?_, ?_⟩
  · simp only [lua_isnoneornil, decide_eq_true_eq]
    exact hiff
  · simp only [lua_isnoneornil, lua_isnone, lua_isnil, ← Bool.decide_or]
    exact decide_eq_decide.mpr hiff
  · intro h
    simp only [lua_isnoneornil, decide_eq_false_iff_not]
    omega

theorem isnoneornil_iff_none_or_nil_witness :
    (lua_isnoneornil lua_type [TValue.nil, TValue.number 3] 5 = true ↔
      (lua_type [TValue.nil, TValue.number 3] 5 = LUA_TNONE ∨
        lua_type [TValue.nil, TValue.number 3] 5 = LUA_TNIL)) ∧
    lua_isnoneornil lua_type [TValue.nil, TValue.number 3] 5
      = (lua_isnone lua_type [TValue.nil, TValue.number 3] 5 ||
          lua_isnil lua_type [TValue.nil, TValue.number 3] 5) ∧
    (lua_type [TValue.nil, TValue.number 3] 5 ∈ nonNilTags →
      lua_isnoneornil lua_type [TValue.nil, TValue.number 3] 5 = false) :=
  isnoneornil_iff_none_or_nil lua_type [TValue.nil, TValue.number 3] 5 (Or.inl (by decide))

/-- C12: the tags of nil, boolean, light userdata, number, string, table,
function, full userdata and thread are the integers `0, 1, ..., 8` in this order,
so an integer is one of them exactly when it lies in `0..8`; they are pairwise
distinct; and `LUA_TNONE` is `-1`, different from every one of them. -/
theorem type_tags_closed_and_distinct :
    typeTags = [0, 1, 2, 3, 4, 5, 6, 7, 8] ∧
    typeTags.length = 9 ∧
    (∀ v : Int, v ∈ typeTags ↔ 0 ≤ v ∧ v ≤ 8) ∧
    typeTags.Nodup ∧
    LUA_TNONE = -1 ∧
    LUA_TNONE ∉ typeTags := by
  refine ⟨by decide, by decide, mem_typeTags, by decide, by decide, by decide⟩

theorem HookEvent.testBit_mask (e f : HookEvent) :
    f.mask.testBit e.code = decide (e = f) := by
  cases e <;> cases f <;> decide

/-- C13: the event codes are call 0, return 1, line 2, count 3, tail-return 4; the
mask of each of the first four events is `2 ^ code` (1, 2, 4, 8); two different
masks share no bit; and the bitwise OR of the masks of any set of these events has
the bit of an event set exactly when the event is in the set. -/
theorem hook_mask_is_bitset :
    (LUA_HOOKCALL = 0 ∧ LUA_HOOKRET = 1 ∧ LUA_HOOKLINE = 2 ∧ LUA_HOOKCOUNT = 3 ∧
      LUA_HOOKTAILRET = 4) ∧
    (LUA_MASKCALL = 1 ∧ LUA_MASKRET = 2 ∧ LUA_MASKLINE = 4 ∧ LUA_MASKCOUNT = 8) ∧
    (∀ e : HookEvent, e.mask = 2 ^ e.code) ∧
    (∀ e f : HookEvent, e ≠ f → e.mask &&& f.mask = 0) ∧
    (∀ (S : List HookEvent) (e : HookEvent), (hookMask S).testBit e.code = true ↔ e ∈ S) := by
  refine ⟨by decide, by decide, ?_, ?_, ?_⟩
  · intro e
    cases e <;> decide
  · intro e f hef
    cases e <;> cases f <;> first | exact absurd rfl hef | decide
  intro S e
  induction S with
  | nil => simp [hookMask]
  | cons f S ih =>
    rw [hookMask, Nat.testBit_lor, Bool.or_eq_true, ih, HookEvent.testBit_mask,
      decide_eq_true_eq, List.mem_cons]

/-- C14: the GC opcodes stop, restart, collect, count, count-remainder, step,
set-pause and set-step-multiplier are `0, 1, ..., 7` in this order and pairwise
distinct, and `lua_getgccount(L)` is `lua_gc(L, 3, 0)`. -/
theorem gc_opcodes_numbered :
    (LUA_GCSTOP = 0 ∧ LUA_GCRESTART = 1 ∧ LUA_GCCOLLECT = 2 ∧ LUA_GCCOUNT = 3 ∧
      LUA_GCCOUNTB = 4 ∧ LUA_GCSTEP = 5 ∧ LUA_GCSETPAUSE = 6 ∧ LUA_GCSETSTEPMUL = 7) ∧
    gcOpcodes = [0, 1, 2, 3, 4, 5, 6, 7] ∧
    gcOpcodes.Nodup ∧
    (∀ (σ α : Type) (gc : σ → Int → Int → α) (L : σ), lua_getgccount gc L = gc L 3 0) := by
  refine ⟨by decide, by decide, by decide, ?_⟩
  intro σ α gc L
  rfl

/-- C15 (as stated, at an overflowing position): `2147473647` is a C `int` and is
at least 1, yet `LUA_GLOBALSINDEX - 2147473647` leaves the `int` range and
`lua_upvalueindex(2147473647)` is `2147483647`, which is not below
`LUA_GLOBALSINDEX` and lies above -10000. -/
theorem upvalueindex_wraps_at_overflow :
    (1 : Int) ≤ 2147473647 ∧ inIntRange 2147473647 ∧
    ¬ inIntRange (LUA_GLOBALSINDEX - 2147473647) ∧
    lua_upvalueindex 2147473647 = 2147483647 ∧
    ¬ (lua_upvalueindex 2147473647 < LUA_GLOBALSINDEX) ∧
    -10000 < lua_upvalueindex 2147473647 := by
  decide

/-- C15 (amended): for C `int` arguments on which the subtraction does not overflow,
`lua_upvalueindex(i)` is `LUA_GLOBALSINDEX - i`; when moreover `i ≥ 1` the result is
strictly below `LUA_GLOBALSINDEX`, hence different from the registry, environment
and globals pseudo-indices and from every index above -10000; on such arguments
the map is strictly decreasing and injective; and `lua_upvalueindex(0)` is
`LUA_GLOBALSINDEX`. -/
theorem upvalueindex_separated (i j : Int) (hir : inIntRange i)
    (hio : inIntRange (LUA_GLOBALSINDEX - i)) (hjr : inIntRange j)
    (hjo : inIntRange (LUA_GLOBALSINDEX - j)) :
    lua_upvalueindex i = LUA_GLOBALSINDEX - i ∧
    (1 ≤ i →
      lua_upvalueindex i < LUA_GLOBALSINDEX ∧
      (lua_upvalueindex i ≠ LUA_REGISTRYINDEX ∧ lua_upvalueindex i ≠ LUA_ENVIRONINDEX ∧
        lua_upvalueindex i ≠ LUA_GLOBALSINDEX) ∧
      (∀ p : Int, -10000 < p → lua_upvalueindex i ≠ p)) ∧
    (i < j → lua_upvalueindex j < lua_upvalueindex i) ∧
    (lua_upvalueindex i = lua_upvalueindex j → i = j) ∧
    lua_upvalueindex 0 = LUA_GLOBALSINDEX := by
  unfold inIntRange INT_MIN INT_MAX at *
  unfold lua_upvalueindex wrapInt32
  unfold LUA_GLOBALSINDEX at *
  unfold LUA_REGISTRYINDEX LUA_ENVIRONINDEX
  refine ⟨by omega, ?_, by omega, by omega, by omega⟩
  intro hi
  refine ⟨by omega, ⟨by omega, by omega, by omega⟩, ?_⟩
  intro p hp
  omega

theorem upvalueindex_separated_witness :
    lua_upvalueindex 1 = LUA_GLOBALSINDEX - 1 ∧
    ((1 : Int) ≤ 1 →
      lua_upvalueindex 1 < LUA_GLOBALSINDEX ∧
      (lua_upvalueindex 1 ≠ LUA_REGISTRYINDEX ∧ lua_upvalueindex 1 ≠ LUA_ENVIRONINDEX ∧
        lua_upvalueindex 1 ≠ LUA_GLOBALSINDEX) ∧
      (∀ p : Int, -10000 < p → lua_upvalueindex 1 ≠ p)) ∧
    ((1 : Int) < 2 → lua_upvalueindex 2 < lua_upvalueindex 1) ∧
    (lua_upvalueindex 1 = lua_upvalueindex 2 → (1 : Int) = 2) ∧
    lua_upvalueindex 0 = LUA_GLOBALSINDEX :=
  upvalueindex_separated 1 2 (by decide) (by decide) (by decide) (by decide)

end Lua
